import Mathlib

/-!
Verification development for the noisytransfer relay server.

Part 1: the room/mailbox engine (Go package `hub`, file embedded in
`src/noisytransferd/main.go`).  Go maps are modelled as association lists
(first binding wins on lookup, assignment replaces the first binding,
`delete` removes every binding of the key).  Websocket connections are
modelled by numeric identifiers; the wall clock is an explicit `Nat`
parameter (nanoseconds, matching Go `time.Duration`).  Frames written to
sockets are recorded as an explicit event list instead of performing I/O.
-/

/-- Go map lookup `l[k]` on an association list: first binding wins. -/
def mapGet {κ β : Type} [DecidableEq κ] (k : κ) : List (κ × β) → Option β
  | [] => none
  | (k', v) :: rest => if k' = k then some v else mapGet k rest

/-- Go map assignment `l[k] = v`: replace the first binding, else append. -/
def mapSet {κ β : Type} [DecidableEq κ] (k : κ) (v : β) : List (κ × β) → List (κ × β)
  | [] => [(k, v)]
  | (k', v') :: rest => if k' = k then (k, v) :: rest else (k', v') :: mapSet k v rest

/-- Go map deletion `delete(l, k)`: drop every binding of `k`. -/
def mapDel {κ β : Type} [DecidableEq κ] (k : κ) (l : List (κ × β)) : List (κ × β) :=
  l.filter (fun p => p.1 ≠ k)

/-- Number of bindings of key `k` (1 for a well-formed map containing `k`). -/
def countKey {κ β : Type} [DecidableEq κ] (k : κ) (l : List (κ × β)) : Nat :=
  (l.filter (fun p => p.1 = k)).length

/-- Constant `roomTTL = 10 * time.Minute`, in nanoseconds. -/
def roomTTL : Nat := 600000000000

/-- Constant `maxMailboxQueued = 10000`. -/
def maxMailboxQueued : Nat := 10000

/-- Go struct `queued`: one mailbox entry `(seq, from, payload)`. -/
structure Queued where
  seq : Nat
  fromSide : String
  payload : String
deriving DecidableEq, Repr

/-- Go struct `mailbox`: per-side inbox with sequence counter and watermark. -/
structure Mailbox where
  nextSeq : Nat
  deliveredUpTo : Nat
  queue : List Queued
deriving DecidableEq, Repr

/-- Fresh mailbox `&mailbox{}` (Go zero value). -/
def mb0 : Mailbox := { nextSeq := 0, deliveredUpTo := 0, queue := [] }

/-- Go struct `room`: connections, session ids and mailboxes per side. -/
structure Room where
  conns : List (String × Nat)
  sids : List (String × String)
  mboxes : List (String × Mailbox)
  lastActivity : Nat
deriving DecidableEq, Repr

/-- Go struct `Hub`: room table plus the reverse index `byConn`. -/
structure Hub where
  rooms : List (String × Room)
  byConn : List (Nat × (String × String))
deriving DecidableEq, Repr

/-- Hub state produced by `NewHub` (empty tables). -/
def hub0 : Hub := { rooms := [], byConn := [] }

/-- Frames and socket actions the engine performs, recorded as events. -/
inductive WsEvent where
  | closeFrame (conn code : Nat) (reason : String)
  | connClosed (conn : Nat)
  | deliverFrame (conn seq : Nat) (fromSide payload : String)
  | textEvent (conn : Nat) (tag : String)
deriving DecidableEq, Repr

/-- Fresh room literal built by `Register` and `Enqueue` on first use. -/
def freshRoom (now : Nat) : Room :=
  { conns := [], sids := [],
    mboxes := [("A", mb0), ("B", mb0)], lastActivity := now }

/-- Helper `touch`: set `lastActivity` of the room (no-op if absent). -/
def Hub.touch (now : Nat) (appID : String) (h : Hub) : Hub :=
  match mapGet appID h.rooms with
  | none => h
  | some r => { h with rooms := mapSet appID { r with lastActivity := now } h.rooms }

/-- Function `trimQueue`: drop the front of the queue while `seq ≤ deliveredUpTo`. -/
def dropDelivered (d : Nat) : List Queued → List Queued
  | [] => []
  | q :: rest => if q.seq ≤ d then dropDelivered d rest else q :: rest

/-- Go `trimQueue(mb)` as a pure mailbox transformer. -/
def trimQueue (mb : Mailbox) : Mailbox :=
  { mb with queue := dropDelivered mb.deliveredUpTo mb.queue }

/-- Function `pushAllLocked`: snapshot deliverable frames (`seq > deliveredUpTo`)
for the side's current connection and emit them; touches `lastActivity` only
when at least one frame was sent (the Go code returns early otherwise). -/
def Hub.pushAllLocked (now : Nat) (appID side : String) (h : Hub) :
    Hub × List WsEvent :=
  match mapGet appID h.rooms with
  | none => (h, [])
  | some r =>
    match mapGet side r.conns with
    | none => (h, [])
    | some c =>
      match mapGet side r.mboxes with
      | none => (h, [])
      | some mb =>
        let frames := mb.queue.filter (fun q => decide (mb.deliveredUpTo < q.seq))
        if frames = [] then (h, [])
        else
          (Hub.touch now appID h,
           frames.map (fun q => WsEvent.deliverFrame c q.seq q.fromSide q.payload))

/-- Method `Register(appID, side, sid, conn)`: validate the side, create the
room on first use, displace any existing connection for the side (close frame
1000 with reason "replaced", then close), record the new connection and push
pending frames. -/
def Hub.Register (now : Nat) (appID side sid : String) (conn : Nat) (h : Hub) :
    Hub × List WsEvent × Except String Unit :=
  if side ≠ "A" ∧ side ≠ "B" then
    (h, [], Except.error "invalid side (want A or B)")
  else
    let r := (mapGet appID h.rooms).getD (freshRoom now)
    let evictEvs :=
      match mapGet side r.conns with
      | none => []
      | some old => [WsEvent.closeFrame old 1000 "replaced", WsEvent.connClosed old]
    let byConn1 :=
      match mapGet side r.conns with
      | none => h.byConn
      | some old => mapDel old h.byConn
    let r1 := { r with
      conns := mapSet side conn r.conns,
      sids := mapSet side sid r.sids,
      lastActivity := now }
    let h1 : Hub :=
      { rooms := mapSet appID r1 h.rooms,
        byConn := mapSet conn (appID, side) byConn1 }
    let hp := Hub.pushAllLocked now appID side h1
    (hp.1, evictEvs ++ hp.2, Except.ok ())

/-- Method `Unregister(appID, conn)`: keyed by the reverse index; the `appID`
argument is ignored by the Go code.  Removes the connection only if it is
still the registered handle for its side. -/
def Hub.Unregister (_appIDArg : String) (conn : Nat) (h : Hub) : Hub :=
  match mapGet conn h.byConn with
  | none => h
  | some key =>
    let h1 : Hub := { h with byConn := mapDel conn h.byConn }
    match mapGet key.1 h1.rooms with
    | none => h1
    | some r =>
      match mapGet key.2 r.conns with
      | none => h1
      | some c =>
        if c = conn then
          { h1 with rooms :=
              mapSet key.1 { r with conns := mapDel key.2 r.conns } h1.rooms }
        else h1

/-- Method `RoomSize(appID)`: number of registered connections in the room. -/
def Hub.RoomSize (appID : String) (h : Hub) : Nat :=
  match mapGet appID h.rooms with
  | none => 0
  | some r => r.conns.length

/-- Method `BroadcastEvent(appID, evt)`: send the marshalled event to every
connection currently in the room. -/
def Hub.BroadcastEvent (appID : String) (tag : String) (h : Hub) : List WsEvent :=
  match mapGet appID h.rooms with
  | none => []
  | some r => r.conns.map (fun p => WsEvent.textEvent p.2 tag)

/-- Watermark advance shared by `Hello` and `AckUpTo`: when the incoming
watermark is larger, record it and trim the queue. -/
def advanceWatermark (d : Nat) (mb : Mailbox) : Mailbox :=
  if mb.deliveredUpTo < d then trimQueue { mb with deliveredUpTo := d } else mb

/-- Mailbox effect of `Enqueue`: assign `seq = nextSeq + 1` and append. -/
def enqueueMb (fromS payload : String) (mb : Mailbox) : Mailbox :=
  { nextSeq := mb.nextSeq + 1, deliveredUpTo := mb.deliveredUpTo,
    queue := mb.queue ++
      [{ seq := mb.nextSeq + 1, fromSide := fromS, payload := payload }] }

/-- Method `Hello(appID, side, sid, deliveredUpTo)`: no-op when the room is
absent; otherwise create the side's mailbox if missing, advance the watermark
monotonically (trimming the queue), push pending frames and touch. -/
def Hub.Hello (now : Nat) (appID side _sid : String) (deliveredUpTo : Nat)
    (h : Hub) : Hub × List WsEvent :=
  match mapGet appID h.rooms with
  | none => (h, [])
  | some r =>
    let mb := (mapGet side r.mboxes).getD mb0
    let mb1 := advanceWatermark deliveredUpTo mb
    let h1 : Hub :=
      { h with rooms := mapSet appID { r with mboxes := mapSet side mb1 r.mboxes } h.rooms }
    let hp := Hub.pushAllLocked now appID side h1
    (Hub.touch now appID hp.1, hp.2)

/-- Method `Enqueue(appID, from, to, payload)`: validate the recipient, create
room and mailbox lazily, assign `seq = nextSeq+1` and append.  When the
post-append queue length exceeds `maxMailboxQueued` it returns the backlog
error with the appended entry left in place (no push, no touch); otherwise it
pushes to the recipient and touches. -/
def Hub.Enqueue (now : Nat) (appID fromS toS payload : String) (h : Hub) :
    Hub × List WsEvent × Except String Unit :=
  if toS ≠ "A" ∧ toS ≠ "B" then
    (h, [], Except.error "invalid 'to' (want A or B)")
  else
    let r := (mapGet appID h.rooms).getD (freshRoom now)
    let mb := (mapGet toS r.mboxes).getD mb0
    let mb1 := enqueueMb fromS payload mb
    let h1 : Hub :=
      { h with rooms := mapSet appID { r with mboxes := mapSet toS mb1 r.mboxes } h.rooms }
    if maxMailboxQueued < mb1.queue.length then
      (h1, [], Except.error "backlog limit")
    else
      let hp := Hub.pushAllLocked now appID toS h1
      (Hub.touch now appID hp.1, hp.2, Except.ok ())

/-- Method `AckUpTo(appID, side, upTo)`: advance the watermark monotonically
and trim; touches `lastActivity` whenever room and mailbox both exist. -/
def Hub.AckUpTo (now : Nat) (appID side : String) (upTo : Nat) (h : Hub) : Hub :=
  match mapGet appID h.rooms with
  | none => h
  | some r =>
    match mapGet side r.mboxes with
    | none => h
    | some mb =>
      let mb1 := advanceWatermark upTo mb
      let h1 : Hub :=
        { h with rooms := mapSet appID { r with mboxes := mapSet side mb1 r.mboxes } h.rooms }
      Hub.touch now appID h1

/-- Room predicate of `gcLoop`: keep unless the room has no connections and
`now - lastActivity > roomTTL`. -/
def keepRoom (now : Nat) (r : Room) : Bool :=
  !(r.conns.isEmpty && decide (roomTTL < now - r.lastActivity))

/-- One iteration of the `gcLoop` ticker body: delete a room iff it has no
connections and its idle time exceeds `roomTTL`. -/
def Hub.gcTick (now : Nat) (h : Hub) : Hub :=
  { h with rooms := h.rooms.filter (fun p => keepRoom now p.2) }

/-- Handler flow of `NewWSHandler` (src/unnamed/part_000) after a successful
appID/side validation and upgrade: register with the hub, then, if the room
now has two connections, broadcast the `room_full` event to both. -/
def wsConnect (now : Nat) (appID side sid : String) (conn : Nat) (h : Hub) :
    Hub × List WsEvent :=
  match Hub.Register now appID side sid conn h with
  | (h1, evs, Except.error e) =>
    (h1, evs ++ [WsEvent.closeFrame conn 1008 e])
  | (h1, evs, Except.ok _) =>
    if Hub.RoomSize appID h1 = 2 then
      (h1, evs ++ Hub.BroadcastEvent appID "room_full" h1)
    else (h1, evs)

/-- Observation: the mailbox of `(appID, side)` in a hub state. -/
def mbOf (h : Hub) (appID side : String) : Option Mailbox :=
  (mapGet appID h.rooms).bind (fun r => mapGet side r.mboxes)

/-- Observation: the registered connection of `(appID, side)`. -/
def connOf (h : Hub) (appID side : String) : Option Nat :=
  (mapGet appID h.rooms).bind (fun r => mapGet side r.conns)

/-!
Operation alphabet for reachable hub states: the public engine operations
together with the GC tick.  Outputs (events, results) are discarded; only the
state transition matters for invariants.
-/

/-- Hub operation with its wall-clock instant. -/
inductive HubOp where
  | register (now : Nat) (appID side sid : String) (conn : Nat)
  | unregister (appID : String) (conn : Nat)
  | hello (now : Nat) (appID side sid : String) (deliveredUpTo : Nat)
  | enqueue (now : Nat) (appID fromS toS payload : String)
  | ack (now : Nat) (appID side : String) (upTo : Nat)
  | gc (now : Nat)
deriving DecidableEq, Repr

/-- State transition of one hub operation. -/
def HubOp.apply : HubOp → Hub → Hub
  | .register now appID side sid conn, h => (Hub.Register now appID side sid conn h).1
  | .unregister appID conn, h => Hub.Unregister appID conn h
  | .hello now appID side sid d, h => (Hub.Hello now appID side sid d h).1
  | .enqueue now appID f t p, h => (Hub.Enqueue now appID f t p h).1
  | .ack now appID side upTo, h => Hub.AckUpTo now appID side upTo h
  | .gc now, h => Hub.gcTick now h

/-- Run a list of operations from a start state. -/
def runOps (ops : List HubOp) (h : Hub) : Hub :=
  ops.foldl (fun s op => op.apply s) h

/-- Current `nextSeq` of a mailbox, defaulting to 0 when absent. -/
def nextSeqAt (h : Hub) (appID side : String) : Nat :=
  ((mbOf h appID side).map Mailbox.nextSeq).getD 0

/-- Watermark guard: a `hello` or `delivered` frame is honest when the
acknowledged watermark does not exceed the sequence numbers ever assigned to
the target mailbox. -/
def HubOp.guardOK (h : Hub) : HubOp → Bool
  | .hello _ appID side _ d => decide (d ≤ nextSeqAt h appID side)
  | .ack _ appID side upTo => decide (upTo ≤ nextSeqAt h appID side)
  | _ => true

/-- Run predicate: every watermark-advancing operation in the run is honest at
the state where it executes. -/
def GoodRun : Hub → List HubOp → Bool
  | _, [] => true
  | h, op :: rest => op.guardOK h && GoodRun (op.apply h) rest

/-!
Part 2: the staged object store (Go package `storage`, `src/unnamed/part_004`)
and the blob endpoint of the HTTP surface (`src/handler/handler.go`).

SHA-256 (Go `crypto/sha256`) is embedded as a pure function on byte lists,
with 32-bit words represented as `Nat` reduced `% 2^32`.
-/

/-- Modulus of 32-bit words. -/
def w32 : Nat := 4294967296

/-- Right rotation of a 32-bit word. -/
def rotr32 (n x : Nat) : Nat := ((x >>> n) ||| (x <<< (32 - n))) % w32

/-- Bitwise complement of a 32-bit word. -/
def bitNot32 (x : Nat) : Nat := x ^^^ (w32 - 1)

/-- SHA-256 Σ₀. -/
def sigmaBig0 (x : Nat) : Nat := rotr32 2 x ^^^ rotr32 13 x ^^^ rotr32 22 x

/-- SHA-256 Σ₁. -/
def sigmaBig1 (x : Nat) : Nat := rotr32 6 x ^^^ rotr32 11 x ^^^ rotr32 25 x

/-- SHA-256 σ₀. -/
def sigmaSmall0 (x : Nat) : Nat := rotr32 7 x ^^^ rotr32 18 x ^^^ (x >>> 3)

/-- SHA-256 σ₁. -/
def sigmaSmall1 (x : Nat) : Nat := rotr32 17 x ^^^ rotr32 19 x ^^^ (x >>> 10)

/-- SHA-256 choice function. -/
def chF (x y z : Nat) : Nat := (x &&& y) ^^^ (bitNot32 x &&& z)

/-- SHA-256 majority function. -/
def majF (x y z : Nat) : Nat := (x &&& y) ^^^ (x &&& z) ^^^ (y &&& z)

/-- SHA-256 round constants (FIPS 180-4), written in decimal. -/
def sha256K : List Nat :=
  [1116352408, 1899447441, 3049323471, 3921009573, 961987163,
   1508970993, 2453635748, 2870763221, 3624381080, 310598401,
   607225278, 1426881987, 1925078388, 2162078206, 2614888103,
   3248222580, 3835390401, 4022224774, 264347078, 604807628,
   770255983, 1249150122, 1555081692, 1996064986, 2554220882,
   2821834349, 2952996808, 3210313671, 3336571891, 3584528711,
   113926993, 338241895, 666307205, 773529912, 1294757372,
   1396182291, 1695183700, 1986661051, 2177026350, 2456956037,
   2730485921, 2820302411, 3259730800, 3345764771, 3516065817,
   3600352804, 4094571909, 275423344, 430227734, 506948616,
   659060556, 883997877, 958139571, 1322822218, 1537002063,
   1747873779, 1955562222, 2024104815, 2227730452, 2361852424,
   2428436474, 2756734187, 3204031479, 3329325298]

/-- SHA-256 initial hash state (FIPS 180-4), written in decimal. -/
def sha256H0 : List Nat :=
  [1779033703, 3144134277, 1013904242, 2773480762,
   1359893119, 2600822924, 528734635, 1541459225]

/-- Big-endian byte encoding of `v` on `n` bytes. -/
def beBytes (n v : Nat) : List Nat :=
  (List.range n).map (fun i => (v >>> (8 * (n - 1 - i))) % 256)

/-- SHA-256 padding: append 0x80, zero fill, and the 64-bit bit length. -/
def sha256pad (msg : List Nat) : List Nat :=
  msg ++ [0x80] ++ List.replicate ((119 - (msg.length % 64)) % 64) 0
      ++ beBytes 8 (8 * msg.length)

/-- Group bytes into big-endian 32-bit words. -/
def toWords : List Nat → List Nat
  | b0 :: b1 :: b2 :: b3 :: rest =>
    (((b0 * 256 + b1) * 256 + b2) * 256 + b3) :: toWords rest
  | _ => []

/-- Split a byte list into 64-byte blocks. -/
def chunks64 : List Nat → List (List Nat)
  | [] => []
  | x :: rest => (x :: rest.take 63) :: chunks64 (rest.drop 63)
termination_by l => l.length
decreasing_by simp; omega

/-- Message schedule: extend 16 words to 64. -/
def schedule (initial : List Nat) : Array Nat :=
  (List.range 48).foldl
    (fun a _ =>
      a.push ((sigmaSmall1 (a.getD (a.size - 2) 0) + a.getD (a.size - 7) 0 +
               sigmaSmall0 (a.getD (a.size - 15) 0) + a.getD (a.size - 16) 0) % w32))
    initial.toArray

/-- One SHA-256 compression round on the eight-word state. -/
def sha256round (state : List Nat) (ki wi : Nat) : List Nat :=
  match state with
  | [a, b, c, d, e, f, g, hh] =>
    let t1 := (hh + sigmaBig1 e + chF e f g + ki + wi) % w32
    let t2 := (sigmaBig0 a + majF a b c) % w32
    [(t1 + t2) % w32, a, b, c, (d + t1) % w32, e, f, g]
  | s => s

/-- Compress one 64-byte block into the running hash state. -/
def sha256block (hs : List Nat) (block : List Nat) : List Nat :=
  let ws := schedule (toWords block)
  let final := (List.range 64).foldl
    (fun st i => sha256round st (sha256K.getD i 0) (ws.getD i 0)) hs
  (hs.zip final).map (fun p => (p.1 + p.2) % w32)

/-- SHA-256 digest (32 bytes) of a byte list. -/
def sha256 (msg : List Nat) : List Nat :=
  (((chunks64 (sha256pad msg)).foldl sha256block sha256H0).map (beBytes 4)).flatten

/-- Lowercase hexadecimal digit. -/
def hexDigit (n : Nat) : Char := "0123456789abcdef".toList.getD n '0'

/-- Lowercase hexadecimal of one byte. -/
def byteHex (b : Nat) : String := String.mk [hexDigit (b / 16 % 16), hexDigit (b % 16)]

/-- Lowercase hexadecimal of a byte list (Go `hex.EncodeToString`). -/
def bytesHex (l : List Nat) : String := String.join (l.map byteHex)

/-- Hex SHA-256 digest, as computed by `PutBlob` for the ETag. -/
def sha256hex (msg : List Nat) : String := bytesHex (sha256 msg)

namespace storage

/-- Go struct `Meta` (`meta.json`). -/
structure Meta where
  size : Nat
  etag : String
  createdAt : Nat
  committed : Bool
deriving DecidableEq, Repr

/-- Contents of one object directory `ROOT/objects/{id}`; `none` fields are
absent files, `meta = none` means `meta.json` is missing or unreadable. -/
structure ObjDir where
  blobTmp : Option (List Nat)
  blob : Option (List Nat)
  manifest : Option (List Nat)
  meta : Option Meta
deriving DecidableEq, Repr

/-- Method `Create`: fresh directory with zeroed, uncommitted meta.  The
overall object state is `Option ObjDir`; `none` models a missing directory. -/
def Create (now : Nat) : ObjDir :=
  { blobTmp := none, blob := none, manifest := none,
    meta := some { size := 0, etag := "", createdAt := now, committed := false } }

/-- Method `PutBlob(id, r)`: stream into `blob.tmp` while hashing; then read
meta (failure leaves the written `blob.tmp` behind) and persist size/etag. -/
def PutBlob (x : List Nat) :
    Option ObjDir → Option ObjDir × Except String (Nat × String)
  | none => (none, Except.error "create blob.tmp: no such file or directory")
  | some d =>
    let d1 := { d with blobTmp := some x }
    match d.meta with
    | none => (some d1, Except.error "read meta")
    | some m =>
      (some { d1 with meta := some { m with size := x.length, etag := sha256hex x } },
       Except.ok (x.length, sha256hex x))

/-- Method `PutManifest(id, r)`: stream into `manifest.json`. -/
def PutManifest (x : List Nat) : Option ObjDir → Option ObjDir × Except String Unit
  | none => (none, Except.error "create manifest.json: no such file or directory")
  | some d => (some { d with manifest := some x }, Except.ok ())

/-- Method `Commit(id)`: require readable meta, `blob.tmp` and
`manifest.json`; rename `blob.tmp → blob`, set `committed`, persist and
return the meta.  Each precondition failure returns the state unchanged. -/
def Commit : Option ObjDir → Option ObjDir × Except String Meta
  | none => (none, Except.error "read meta: no such file or directory")
  | some d =>
    match d.meta with
    | none => (some d, Except.error "read meta")
    | some m =>
      match d.blobTmp with
      | none => (some d, Except.error "stat blob.tmp: no such file or directory")
      | some bt =>
        match d.manifest with
        | none => (some d, Except.error "stat manifest.json: no such file or directory")
        | some _ =>
          let m1 := { m with committed := true }
          (some { d with blobTmp := none, blob := some bt, meta := some m1 },
           Except.ok m1)

/-- Method `StatBlob(id)`: meta if readable and either `blob` or `blob.tmp`
exists; otherwise an error (`os.ErrNotExist` when neither blob is present). -/
def StatBlob : Option ObjDir → Except String Meta
  | none => Except.error "read meta: no such file or directory"
  | some d =>
    match d.meta with
    | none => Except.error "read meta"
    | some m =>
      if d.blob.isSome then Except.ok m
      else if d.blobTmp.isSome then Except.ok m
      else Except.error "file does not exist"

/-- Method `OpenFile(id)`: open the committed blob for reading. -/
def OpenFile : Option ObjDir → Except String (List Nat)
  | none => Except.error "open blob: no such file or directory"
  | some d =>
    match d.blob with
    | none => Except.error "open blob: no such file or directory"
    | some b => Except.ok b

end storage

/-- HTTP method of a blob read request. -/
inductive HMethod where
  | get
  | head
deriving DecidableEq, Repr

/-- Observable part of an HTTP response from the blob endpoint: status,
problem `code` (for error envelopes), `ETag` header and body. -/
structure HttpResponse where
  status : Nat
  code : Option String
  etag : Option String
  body : Option (List Nat)
deriving DecidableEq, Repr

/-- Handler `srvBlob` for GET/HEAD (`src/handler/handler.go`): 404 when
`StatBlob` fails, 409 `NC_NOT_COMMITTED` when the meta is uncommitted, 204
with headers for HEAD, otherwise the served file. -/
def srvBlobRead (m : HMethod) (st : Option storage.ObjDir) : HttpResponse :=
  match storage.StatBlob st with
  | Except.error _ =>
    { status := 404, code := some "NC_NOT_FOUND", etag := none, body := none }
  | Except.ok meta =>
    if !meta.committed then
      { status := 409, code := some "NC_NOT_COMMITTED", etag := none, body := none }
    else
      match m with
      | .head => { status := 204, code := none, etag := some meta.etag, body := none }
      | .get =>
        match storage.OpenFile st with
        | Except.error _ =>
          { status := 404, code := some "NC_NOT_FOUND", etag := none, body := none }
        | Except.ok bytes =>
          { status := 200, code := none, etag := some meta.etag, body := some bytes }

/-- Observation: the parsed meta of an object state. -/
def metaOf (st : Option storage.ObjDir) : Option storage.Meta :=
  st.bind storage.ObjDir.meta

/-- Observation: the committed blob contents. -/
def blobOf (st : Option storage.ObjDir) : Option (List Nat) :=
  st.bind storage.ObjDir.blob

/-- Observation: the staged `blob.tmp` contents. -/
def blobTmpOf (st : Option storage.ObjDir) : Option (List Nat) :=
  st.bind storage.ObjDir.blobTmp

/-- Observation: the manifest contents. -/
def manifestOf (st : Option storage.ObjDir) : Option (List Nat) :=
  st.bind storage.ObjDir.manifest

/-- Observation: the connection list of a room (empty if the room is absent). -/
def roomConns (h : Hub) (appID : String) : List (String × Nat) :=
  match mapGet appID h.rooms with
  | none => []
  | some r => r.conns

/-- Success test for an `Except` result. -/
def exceptOk {e a : Type} : Except e a → Bool
  | Except.ok _ => true
  | Except.error _ => false

/-- Connections that received a `room_full` event in an event list. -/
def roomFullTargets (evs : List WsEvent) : List Nat :=
  evs.filterMap (fun e =>
    match e with
    | WsEvent.textEvent c tag => if tag = "room_full" then some c else none
    | _ => none)

/-- Number of `room_full` events delivered to connection `c`. -/
def countRF (c : Nat) (evs : List WsEvent) : Nat :=
  ((roomFullTargets evs).filter (fun c2 => decide (c2 = c))).length

/-- Hub state after `n` consecutive `Enqueue("u", "B", "A", "p")` calls. -/
def enqueueN : Nat → Hub
  | 0 => hub0
  | n + 1 => (Hub.Enqueue 0 "u" "B" "A" "p" (enqueueN n)).1

/-- Expected mailbox of side "A" after `n` consecutive enqueues. -/
def mbN : Nat → Mailbox
  | 0 => mb0
  | n + 1 => enqueueMb "B" "p" (mbN n)

/-- Queue invariant that holds unconditionally: strictly ascending sequence
numbers, all bounded by `nextSeq`. -/
def MbSorted (mb : Mailbox) : Prop :=
  mb.queue.Pairwise (fun a b => a.seq < b.seq) ∧ ∀ q ∈ mb.queue, q.seq ≤ mb.nextSeq

/-- Watermark invariant: `deliveredUpTo ≤ nextSeq` and every queued entry is
above the watermark.  Holds only for honest watermark advances. -/
def MbWatermark (mb : Mailbox) : Prop :=
  mb.deliveredUpTo ≤ mb.nextSeq ∧ ∀ q ∈ mb.queue, mb.deliveredUpTo < q.seq

/-- Predicate `P` holds for every mailbox stored anywhere in the hub. -/
def HubMbs (P : Mailbox → Prop) (h : Hub) : Prop :=
  ∀ a r, (a, r) ∈ h.rooms → ∀ s mb, (s, mb) ∈ r.mboxes → P mb

/-!
Lemmas about the association-list map model.
-/

theorem mapGet_set_self {κ β : Type} [DecidableEq κ] (k : κ) (v : β)
    (l : List (κ × β)) : mapGet k (mapSet k v l) = some v := by
  induction l with
  | nil => simp [mapGet, mapSet]
  | cons p rest ih =>
    obtain ⟨k', v'⟩ := p
    by_cases hk : k' = k
    · simp [mapGet, mapSet, hk]
    · simp [mapGet, mapSet, hk, ih]

theorem mapGet_set_ne {κ β : Type} [DecidableEq κ] {k k' : κ} (v : β)
    (l : List (κ × β)) (hne : k' ≠ k) :
    mapGet k' (mapSet k v l) = mapGet k' l := by
  induction l with
  | nil => simp [mapGet, mapSet, Ne.symm hne]
  | cons p rest ih =>
    obtain ⟨k0, v0⟩ := p
    by_cases hk : k0 = k
    · subst hk
      simp only [mapSet, if_pos rfl]
      simp [mapGet, Ne.symm hne]
    · simp only [mapSet, if_neg hk]
      by_cases hk' : k0 = k'
      · simp [mapGet, hk']
      · simp [mapGet, hk', ih]

theorem mapGet_mem {κ β : Type} [DecidableEq κ] {k : κ} {v : β}
    {l : List (κ × β)} (hG : mapGet k l = some v) : (k, v) ∈ l := by
  induction l with
  | nil => simp [mapGet] at hG
  | cons p rest ih =>
    obtain ⟨k0, v0⟩ := p
    simp only [mapGet] at hG
    by_cases hk : k0 = k
    · subst hk
      rw [if_pos rfl] at hG
      injection hG with hv
      subst hv
      exact List.mem_cons_self _ _
    · rw [if_neg hk] at hG
      exact List.mem_cons_of_mem _ (ih hG)

theorem mem_mapSet {κ β : Type} [DecidableEq κ] {x : κ × β} {k : κ} {v : β}
    {l : List (κ × β)} (hx : x ∈ mapSet k v l) : x = (k, v) ∨ x ∈ l := by
  induction l with
  | nil => simp [mapSet] at hx; simp [hx]
  | cons p rest ih =>
    obtain ⟨k0, v0⟩ := p
    simp only [mapSet] at hx
    by_cases hk : k0 = k
    · rw [if_pos hk] at hx
      rcases List.mem_cons.1 hx with h | h
      · exact Or.inl h
      · exact Or.inr (List.mem_cons_of_mem _ h)
    · rw [if_neg hk] at hx
      rcases List.mem_cons.1 hx with h | h
      · exact Or.inr (h ▸ List.mem_cons_self _ _)
      · rcases ih h with h2 | h2
        · exact Or.inl h2
        · exact Or.inr (List.mem_cons_of_mem _ h2)

theorem mapGet_none_of_not_key {κ β : Type} [DecidableEq κ] {k : κ}
    {l : List (κ × β)} (hk : k ∉ l.map Prod.fst) : mapGet k l = none := by
  induction l with
  | nil => simp [mapGet]
  | cons p rest ih =>
    obtain ⟨k0, v0⟩ := p
    rw [List.map_cons, List.mem_cons] at hk
    push_neg at hk
    simp only [mapGet]
    rw [if_neg (fun h => hk.1 h.symm)]
    exact ih hk.2

theorem mapGet_filter {κ β : Type} [DecidableEq κ] (p : κ × β → Bool)
    {k : κ} {v : β} {l : List (κ × β)} (hnod : (l.map Prod.fst).Nodup)
    (hG : mapGet k l = some v) :
    mapGet k (l.filter p) = if p (k, v) then some v else none := by
  induction l with
  | nil => simp [mapGet] at hG
  | cons q rest ih =>
    obtain ⟨k0, v0⟩ := q
    rw [List.map_cons, List.nodup_cons] at hnod
    simp only [mapGet] at hG
    by_cases hk : k0 = k
    · subst hk
      rw [if_pos rfl] at hG
      injection hG with hv
      rw [← hv]
      have hrest : mapGet k0 (rest.filter p) = none := by
        apply mapGet_none_of_not_key
        intro hmem
        have hsub : List.Sublist ((rest.filter p).map Prod.fst) (rest.map Prod.fst) :=
          (List.filter_sublist rest).map Prod.fst
        exact hnod.1 (hsub.subset hmem)
      rw [List.filter_cons]
      by_cases hp : p (k0, v0) = true
      · rw [if_pos hp, if_pos hp]
        simp [mapGet]
      · rw [if_neg hp, if_neg hp]
        exact hrest
    · rw [if_neg hk] at hG
      have hres := ih hnod.2 hG
      rw [List.filter_cons]
      by_cases hp0 : p (k0, v0) = true
      · rw [if_pos hp0]
        simp only [mapGet]
        rw [if_neg hk]
        exact hres
      · rw [if_neg hp0]
        exact hres

theorem countKey_pos {κ β : Type} [DecidableEq κ] {k : κ} {v : β}
    {l : List (κ × β)} (hG : mapGet k l = some v) : 0 < countKey k l := by
  have hm := mapGet_mem hG
  unfold countKey
  have : (k, v) ∈ l.filter (fun p => decide (p.1 = k)) := by
    rw [List.mem_filter]
    exact ⟨hm, by simp⟩
  exact List.length_pos.2 (fun he => by simp [he] at this)

theorem countKey_mapSet {κ β : Type} [DecidableEq κ] (k : κ) (v : β)
    (l : List (κ × β)) :
    countKey k (mapSet k v l) = if countKey k l = 0 then 1 else countKey k l := by
  induction l with
  | nil => simp [countKey, mapSet]
  | cons p rest ih =>
    obtain ⟨k0, v0⟩ := p
    by_cases hk : k0 = k
    · subst hk
      simp only [mapSet, if_pos rfl]
      simp [countKey, List.filter_cons]
    · simp only [mapSet, if_neg hk]
      simp only [countKey, List.filter_cons] at ih ⊢
      simp only [decide_eq_true_eq]
      rw [if_neg hk, if_neg hk]
      simpa [countKey] using ih

/-!
Lemmas about queues and the two mailbox transformers.
-/

theorem dropDelivered_sublist (d : Nat) (q : List Queued) :
    List.Sublist (dropDelivered d q) q := by
  induction q with
  | nil => simp [dropDelivered]
  | cons a rest ih =>
    simp only [dropDelivered]
    by_cases h : a.seq ≤ d
    · rw [if_pos h]
      exact ih.trans (List.sublist_cons_self a rest)
    · rw [if_neg h]

theorem dropDelivered_gt {d : Nat} {q : List Queued}
    (hp : q.Pairwise (fun a b => a.seq < b.seq)) :
    ∀ x ∈ dropDelivered d q, d < x.seq := by
  induction q with
  | nil => simp [dropDelivered]
  | cons a rest ih =>
    rw [List.pairwise_cons] at hp
    intro x hx
    simp only [dropDelivered] at hx
    by_cases h : a.seq ≤ d
    · rw [if_pos h] at hx
      exact ih hp.2 x hx
    · rw [if_neg h] at hx
      rcases List.mem_cons.1 hx with rfl | hx2
      · omega
      · have := hp.1 x hx2
        omega

theorem mbSorted_mb0 : MbSorted mb0 := by
  constructor <;> simp [mb0]

theorem mbWatermark_mb0 : MbWatermark mb0 := by
  constructor <;> simp [mb0]

theorem mbSorted_enqueue (f p : String) {mb : Mailbox} (h : MbSorted mb) :
    MbSorted (enqueueMb f p mb) := by
  obtain ⟨hp, hb⟩ := h
  constructor
  · rw [enqueueMb, List.pairwise_append]
    refine ⟨hp, by simp, ?_⟩
    intro x hx y hy
    simp at hy
    rw [hy]
    have := hb x hx
    simp
    omega
  · intro q hq
    rw [enqueueMb] at hq
    simp only [List.mem_append, List.mem_singleton] at hq
    rcases hq with hq | hq
    · have := hb q hq
      simp [enqueueMb]
      omega
    · rw [hq]
      simp [enqueueMb]

theorem mbSorted_advance (d : Nat) {mb : Mailbox} (h : MbSorted mb) :
    MbSorted (advanceWatermark d mb) := by
  obtain ⟨hp, hb⟩ := h
  rw [advanceWatermark]
  by_cases hlt : mb.deliveredUpTo < d
  · rw [if_pos hlt]
    constructor
    · exact hp.sublist (dropDelivered_sublist d mb.queue)
    · intro q hq
      simp only [trimQueue] at hq
      exact hb q ((dropDelivered_sublist d mb.queue).subset hq)
  · rw [if_neg hlt]
    exact ⟨hp, hb⟩

theorem mbWatermark_enqueue (f p : String) {mb : Mailbox}
    (hw : MbWatermark mb) : MbWatermark (enqueueMb f p mb) := by
  obtain ⟨hd, he⟩ := hw
  constructor
  · simp [enqueueMb]
    omega
  · intro q hq
    simp only [enqueueMb, List.mem_append, List.mem_singleton] at hq
    rcases hq with hq | hq
    · have := he q hq
      simp [enqueueMb]
      omega
    · rw [hq]
      simp [enqueueMb]
      omega

theorem mbWatermark_advance (d : Nat) {mb : Mailbox} (hd : d ≤ mb.nextSeq)
    (hs : MbSorted mb) (hw : MbWatermark mb) :
    MbWatermark (advanceWatermark d mb) := by
  rw [advanceWatermark]
  by_cases hlt : mb.deliveredUpTo < d
  · rw [if_pos hlt]
    constructor
    · simpa [trimQueue] using hd
    · intro q hq
      simp only [trimQueue] at hq ⊢
      exact dropDelivered_gt hs.1 q hq
  · rw [if_neg hlt]
    exact hw

/-!
Preservation of mailbox predicates across hub operations.
-/

theorem hubMbs_hub0 (P : Mailbox → Prop) : HubMbs P hub0 := by
  intro a r hmem
  simp [hub0] at hmem

theorem hubMbs_set_room {P : Mailbox → Prop} {h : Hub} (a : String) (r1 : Room)
    (bc : List (Nat × (String × String))) (hh : HubMbs P h)
    (hr1 : ∀ s mb, (s, mb) ∈ r1.mboxes → P mb) :
    HubMbs P ⟨mapSet a r1 h.rooms, bc⟩ := by
  intro a' r' hmem s mb hmb
  rcases mem_mapSet hmem with heq | hmem2
  · have hr : r' = r1 := congrArg Prod.snd heq
    subst hr
    exact hr1 s mb hmb
  · exact hh a' r' hmem2 s mb hmb

theorem hubMbs_touch {P : Mailbox → Prop} (now : Nat) (a : String) {h : Hub}
    (hh : HubMbs P h) : HubMbs P (Hub.touch now a h) := by
  unfold Hub.touch
  cases hr : mapGet a h.rooms with
  | none => exact hh
  | some r =>
    exact hubMbs_set_room a _ _ hh
      (fun s mb hmb => hh a r (mapGet_mem hr) s mb hmb)

theorem hubMbs_push {P : Mailbox → Prop} (now : Nat) (a s : String) {h : Hub}
    (hh : HubMbs P h) : HubMbs P (Hub.pushAllLocked now a s h).1 := by
  unfold Hub.pushAllLocked
  cases h1 : mapGet a h.rooms with
  | none => exact hh
  | some r =>
    dsimp only
    cases h2 : mapGet s r.conns with
    | none => exact hh
    | some c =>
      dsimp only
      cases h3 : mapGet s r.mboxes with
      | none => exact hh
      | some mb =>
        dsimp only
        split
        · exact hh
        · exact hubMbs_touch now a hh

theorem hubMbs_apply {P : Mailbox → Prop} (op : HubOp) (h : Hub)
    (hh : HubMbs P h) (hmb0 : P mb0)
    (henq : ∀ f p mb, P mb → P (enqueueMb f p mb))
    (hadv : ∀ d mb, (op.guardOK h = true → d ≤ mb.nextSeq) → P mb →
      P (advanceWatermark d mb)) :
    HubMbs P (op.apply h) := by
  have hgetD : ∀ (ml : List (String × Mailbox)),
      (∀ s mb, (s, mb) ∈ ml → P mb) → ∀ t0, P ((mapGet t0 ml).getD mb0) := by
    intro ml hall t0
    cases hm : mapGet t0 ml with
    | none => exact hmb0
    | some mbx => exact hall t0 mbx (mapGet_mem hm)
  cases op with
  | register now appID side sid conn =>
    simp only [HubOp.apply]
    unfold Hub.Register
    by_cases hside : side ≠ "A" ∧ side ≠ "B"
    · rw [if_pos hside]
      exact hh
    · rw [if_neg hside]
      dsimp only
      apply hubMbs_push
      apply hubMbs_set_room _ _ _ hh
      cases hr : mapGet appID h.rooms with
      | none =>
        intro s mb hmb
        simp [freshRoom] at hmb
        rcases hmb with ⟨_, rfl⟩ | ⟨_, rfl⟩ <;> exact hmb0
      | some r0 =>
        intro s mb hmb
        exact hh appID r0 (mapGet_mem hr) s mb hmb
  | unregister appID conn =>
    simp only [HubOp.apply]
    unfold Hub.Unregister
    cases hk : mapGet conn h.byConn with
    | none => exact hh
    | some key =>
      dsimp only
      cases hr : mapGet key.1 h.rooms with
      | none => exact hh
      | some r =>
        dsimp only
        cases hc : mapGet key.2 r.conns with
        | none => exact hh
        | some c =>
          dsimp only
          by_cases hcc : c = conn
          · rw [if_pos hcc]
            apply hubMbs_set_room _ _ _ hh
            intro s mb hmb
            exact hh key.1 r (mapGet_mem hr) s mb hmb
          · rw [if_neg hcc]
            exact hh
  | hello now appID side sid d =>
    simp only [HubOp.apply]
    unfold Hub.Hello
    cases hr : mapGet appID h.rooms with
    | none => exact hh
    | some r =>
      dsimp only
      apply hubMbs_touch
      apply hubMbs_push
      apply hubMbs_set_room _ _ _ hh
      intro s mb hmb
      rcases mem_mapSet hmb with heq | hmem2
      · have hmbv : mb = advanceWatermark d ((mapGet side r.mboxes).getD mb0) :=
          congrArg Prod.snd heq
        rw [hmbv]
        apply hadv
        · intro hg
          simp only [HubOp.guardOK, nextSeqAt, mbOf, hr, Option.bind_some,
            decide_eq_true_eq] at hg
          cases hm : mapGet side r.mboxes with
          | none => simpa [hm, mb0] using hg
          | some mbx => simpa [hm] using hg
        · exact hgetD r.mboxes (fun s2 mb2 hm2 => hh appID r (mapGet_mem hr) s2 mb2 hm2) side
      · exact hh appID r (mapGet_mem hr) s mb hmem2
  | enqueue now appID f t p =>
    simp only [HubOp.apply]
    unfold Hub.Enqueue
    by_cases ht : t ≠ "A" ∧ t ≠ "B"
    · rw [if_pos ht]
      exact hh
    · rw [if_neg ht]
      dsimp only
      have hstep : ∀ s mb,
          (s, mb) ∈ mapSet t
            (enqueueMb f p
              ((mapGet t ((mapGet appID h.rooms).getD (freshRoom now)).mboxes).getD mb0))
            ((mapGet appID h.rooms).getD (freshRoom now)).mboxes → P mb := by
        have hall : ∀ s mb,
            (s, mb) ∈ ((mapGet appID h.rooms).getD (freshRoom now)).mboxes → P mb := by
          cases hr : mapGet appID h.rooms with
          | none =>
            intro s mb hmb
            simp [freshRoom] at hmb
            rcases hmb with ⟨_, rfl⟩ | ⟨_, rfl⟩ <;> exact hmb0
          | some r0 =>
            intro s mb hmb
            exact hh appID r0 (mapGet_mem hr) s mb hmb
        intro s mb hmb
        rcases mem_mapSet hmb with heq | hmem2
        · injection heq with hs2 hmbv
          rw [hmbv]
          exact henq f p _ (hgetD _ hall t)
        · exact hall s mb hmem2
      split
      · exact hubMbs_set_room _ _ _ hh hstep
      · apply hubMbs_touch
        apply hubMbs_push
        exact hubMbs_set_room _ _ _ hh hstep
  | ack now appID side upTo =>
    simp only [HubOp.apply]
    unfold Hub.AckUpTo
    cases hr : mapGet appID h.rooms with
    | none => exact hh
    | some r =>
      dsimp only
      cases hm : mapGet side r.mboxes with
      | none => exact hh
      | some mbx =>
        dsimp only
        apply hubMbs_touch
        apply hubMbs_set_room _ _ _ hh
        intro s mb hmb
        rcases mem_mapSet hmb with heq | hmem2
        · have hmbv : mb = advanceWatermark upTo mbx := congrArg Prod.snd heq
          rw [hmbv]
          apply hadv
          · intro hg
            simp only [HubOp.guardOK, nextSeqAt, mbOf, hr, Option.bind_some,
              decide_eq_true_eq] at hg
            simpa [hm] using hg
          · exact hh appID r (mapGet_mem hr) side mbx (mapGet_mem hm)
        · exact hh appID r (mapGet_mem hr) s mb hmem2
  | gc now =>
    simp only [HubOp.apply]
    intro a r hmem s mb hmb
    exact hh a r (List.mem_filter.1 hmem).1 s mb hmb

theorem hubMbs_runOps_sorted (ops : List HubOp) :
    ∀ h : Hub, HubMbs MbSorted h → HubMbs MbSorted (runOps ops h) := by
  induction ops with
  | nil => intro h hh; exact hh
  | cons op rest ih =>
    intro h hh
    show HubMbs MbSorted (runOps rest (op.apply h))
    apply ih
    exact hubMbs_apply op h hh mbSorted_mb0
      (fun f p mb hm => mbSorted_enqueue f p hm)
      (fun d mb _ hm => mbSorted_advance d hm)

theorem hubMbs_runOps_guarded (ops : List HubOp) :
    ∀ h : Hub, GoodRun h ops = true →
      HubMbs (fun mb => MbSorted mb ∧ MbWatermark mb) h →
      HubMbs (fun mb => MbSorted mb ∧ MbWatermark mb) (runOps ops h) := by
  induction ops with
  | nil => intro h _ hh; exact hh
  | cons op rest ih =>
    intro h hg hh
    rw [GoodRun, Bool.and_eq_true] at hg
    show HubMbs _ (runOps rest (op.apply h))
    apply ih _ hg.2
    exact hubMbs_apply op h hh ⟨mbSorted_mb0, mbWatermark_mb0⟩
      (fun f p mb hm => ⟨mbSorted_enqueue f p hm.1, mbWatermark_enqueue f p hm.2⟩)
      (fun d mb himp hm => ⟨mbSorted_advance d hm.1,
        mbWatermark_advance d (himp hg.1) hm.1 hm.2⟩)

/-!
State-preservation lemmas: `touch` and `pushAllLocked` change at most a
room's `lastActivity`.
-/

theorem touch_mbOf (now : Nat) (a : String) (h : Hub) (a' s' : String) :
    mbOf (Hub.touch now a h) a' s' = mbOf h a' s' := by
  unfold Hub.touch
  cases hr : mapGet a h.rooms with
  | none => rfl
  | some r =>
    dsimp only [mbOf]
    by_cases ha : a' = a
    · subst ha
      rw [mapGet_set_self, hr]
      rfl
    · rw [mapGet_set_ne _ _ ha]

theorem touch_roomConns (now : Nat) (a : String) (h : Hub) (a' : String) :
    roomConns (Hub.touch now a h) a' = roomConns h a' := by
  unfold Hub.touch
  cases hr : mapGet a h.rooms with
  | none => rfl
  | some r =>
    dsimp only [roomConns]
    by_cases ha : a' = a
    · subst ha
      rw [mapGet_set_self, hr]
    · rw [mapGet_set_ne _ _ ha]

theorem touch_byConn (now : Nat) (a : String) (h : Hub) :
    (Hub.touch now a h).byConn = h.byConn := by
  unfold Hub.touch
  cases mapGet a h.rooms <;> rfl

theorem push_mbOf (now : Nat) (a s : String) (h : Hub) (a' s' : String) :
    mbOf (Hub.pushAllLocked now a s h).1 a' s' = mbOf h a' s' := by
  unfold Hub.pushAllLocked
  cases h1 : mapGet a h.rooms with
  | none => rfl
  | some r =>
    dsimp only
    cases h2 : mapGet s r.conns with
    | none => rfl
    | some c =>
      dsimp only
      cases h3 : mapGet s r.mboxes with
      | none => rfl
      | some mb =>
        dsimp only
        split
        · rfl
        · exact touch_mbOf now a h a' s'

theorem push_roomConns (now : Nat) (a s : String) (h : Hub) (a' : String) :
    roomConns (Hub.pushAllLocked now a s h).1 a' = roomConns h a' := by
  unfold Hub.pushAllLocked
  cases h1 : mapGet a h.rooms with
  | none => rfl
  | some r =>
    dsimp only
    cases h2 : mapGet s r.conns with
    | none => rfl
    | some c =>
      dsimp only
      cases h3 : mapGet s r.mboxes with
      | none => rfl
      | some mb =>
        dsimp only
        split
        · rfl
        · exact touch_roomConns now a h a'

theorem push_byConn (now : Nat) (a s : String) (h : Hub) :
    (Hub.pushAllLocked now a s h).1.byConn = h.byConn := by
  unfold Hub.pushAllLocked
  cases h1 : mapGet a h.rooms with
  | none => rfl
  | some r =>
    dsimp only
    cases h2 : mapGet s r.conns with
    | none => rfl
    | some c =>
      dsimp only
      cases h3 : mapGet s r.mboxes with
      | none => rfl
      | some mb =>
        dsimp only
        split
        · rfl
        · exact touch_byConn now a h

/-!
Claim theorems for the staged object store.
-/

/-- C6: `Commit(id)` succeeds iff the meta is readable and both `blob.tmp`
and `manifest.json` exist; on success it renames `blob.tmp` to `blob`, sets
`committed := true`, persists the meta and returns it; on a precondition
failure it returns an error and leaves the state (in particular the visible
blob) unchanged. -/
theorem commit_characterization (st : Option storage.ObjDir) :
    (exceptOk (storage.Commit st).2 = true ↔
      (metaOf st).isSome ∧ (blobTmpOf st).isSome ∧ (manifestOf st).isSome)
    ∧ (∀ m bt, metaOf st = some m → blobTmpOf st = some bt →
        (manifestOf st).isSome →
        (storage.Commit st).2 = Except.ok { m with committed := true }
        ∧ blobOf (storage.Commit st).1 = some bt
        ∧ blobTmpOf (storage.Commit st).1 = none
        ∧ metaOf (storage.Commit st).1 = some { m with committed := true }
        ∧ manifestOf (storage.Commit st).1 = manifestOf st)
    ∧ (¬((metaOf st).isSome ∧ (blobTmpOf st).isSome ∧ (manifestOf st).isSome) →
        exceptOk (storage.Commit st).2 = false ∧ (storage.Commit st).1 = st) := by
  cases st with
  | none =>
    refine ⟨?_, ?_, ?_⟩ <;>
      simp [storage.Commit, metaOf, blobTmpOf, manifestOf, exceptOk]
  | some d =>
    obtain ⟨bt, bl, mf, mt⟩ := d
    cases mt with
    | none =>
      refine ⟨?_, ?_, ?_⟩ <;>
        simp [storage.Commit, metaOf, blobTmpOf, manifestOf, blobOf, exceptOk]
    | some mv =>
      cases bt with
      | none =>
        refine ⟨?_, ?_, ?_⟩ <;>
          simp [storage.Commit, metaOf, blobTmpOf, manifestOf, blobOf, exceptOk]
      | some btv =>
        cases mf with
        | none =>
          refine ⟨?_, ?_, ?_⟩ <;>
            simp [storage.Commit, metaOf, blobTmpOf, manifestOf, blobOf, exceptOk]
        | some mfv =>
          refine ⟨?_, ?_, ?_⟩ <;>
            simp [storage.Commit, metaOf, blobTmpOf, manifestOf, blobOf, exceptOk]

/-- Witness for C6 at a fully staged object. -/
theorem commit_characterization_witness :
    (storage.Commit (some ⟨some [1, 2], none, some [3],
        some ⟨2, "aa", 5, false⟩⟩)).2
      = Except.ok { size := 2, etag := "aa", createdAt := 5, committed := true }
    ∧ blobOf (storage.Commit (some ⟨some [1, 2], none, some [3],
        some ⟨2, "aa", 5, false⟩⟩)).1 = some [1, 2] := by
  have hthm := commit_characterization
    (some ⟨some [1, 2], none, some [3], some ⟨2, "aa", 5, false⟩⟩)
  have hsucc := hthm.2.1 ⟨2, "aa", 5, false⟩ [1, 2] rfl rfl (by decide)
  exact ⟨hsucc.1, hsucc.2.1⟩

/-- C7: `Create; PutBlob X; PutManifest M; Commit; GET blob` yields status
200 with body `X` and `ETag` the lowercase hex SHA-256 digest of `X`; a GET
after the upload but before `Commit` yields status 409. -/
theorem blob_roundtrip_pipeline (now : Nat) (x m : List Nat) :
    (srvBlobRead HMethod.get
        (storage.PutBlob x (some (storage.Create now))).1).status = 409
    ∧ (srvBlobRead HMethod.get
        (storage.PutManifest m
          (storage.PutBlob x (some (storage.Create now))).1).1).status = 409
    ∧ srvBlobRead HMethod.get
        (storage.Commit
          (storage.PutManifest m
            (storage.PutBlob x (some (storage.Create now))).1).1).1
      = { status := 200, code := none, etag := some (sha256hex x), body := some x } := by
  exact ⟨rfl, rfl, rfl⟩

/-- C8: on GET or HEAD of the blob, an unreadable meta or the absence of both
`blob` and `blob.tmp` yields status 404; otherwise an uncommitted meta yields
status 409 with problem code `NC_NOT_COMMITTED`. -/
theorem srvBlob_error_statuses (m : HMethod) (st : Option storage.ObjDir) :
    ((metaOf st = none ∨ (blobOf st = none ∧ blobTmpOf st = none)) →
      (srvBlobRead m st).status = 404)
    ∧ (∀ mt, metaOf st = some mt →
        ((blobOf st).isSome ∨ (blobTmpOf st).isSome) → mt.committed = false →
        (srvBlobRead m st).status = 409 ∧
        (srvBlobRead m st).code = some "NC_NOT_COMMITTED") := by
  constructor
  · intro hcase
    cases st with
    | none => cases m <;> rfl
    | some d =>
      obtain ⟨bt, bl, mf, mt⟩ := d
      rcases hcase with hmeta | ⟨hb, ht⟩
      · simp [metaOf] at hmeta
        subst hmeta
        cases m <;> rfl
      · simp [blobOf] at hb
        simp [blobTmpOf] at ht
        subst hb
        subst ht
        cases mt with
        | none => cases m <;> rfl
        | some mv => cases m <;> simp [srvBlobRead, storage.StatBlob]
  · intro mt hmt hsome hcom
    cases st with
    | none => simp [metaOf] at hmt
    | some d =>
      obtain ⟨bt, bl, mf, mtf⟩ := d
      simp [metaOf] at hmt
      subst hmt
      cases bl with
      | some blv =>
        constructor <;> simp [srvBlobRead, storage.StatBlob, hcom]
      | none =>
        cases bt with
        | none => simp [blobOf, blobTmpOf] at hsome
        | some btv =>
          constructor <;> simp [srvBlobRead, storage.StatBlob, hcom]

/-- Witness for C8 at a missing object and at an uncommitted object. -/
theorem srvBlob_error_statuses_witness :
    (srvBlobRead HMethod.get none).status = 404
    ∧ (srvBlobRead HMethod.get
        (some ⟨some [1], none, some [2], some ⟨1, "e", 0, false⟩⟩)).status = 409
    ∧ (srvBlobRead HMethod.get
        (some ⟨some [1], none, some [2], some ⟨1, "e", 0, false⟩⟩)).code
      = some "NC_NOT_COMMITTED" := by
  refine ⟨(srvBlob_error_statuses HMethod.get none).1 (Or.inl rfl), ?_, ?_⟩
  · exact ((srvBlob_error_statuses HMethod.get
      (some ⟨some [1], none, some [2], some ⟨1, "e", 0, false⟩⟩)).2
      ⟨1, "e", 0, false⟩ rfl (Or.inr (by decide)) rfl).1
  · exact ((srvBlob_error_statuses HMethod.get
      (some ⟨some [1], none, some [2], some ⟨1, "e", 0, false⟩⟩)).2
      ⟨1, "e", 0, false⟩ rfl (Or.inr (by decide)) rfl).2

/-- C10: after a successful `Commit`, a further `Commit` fails because
`blob.tmp` no longer exists, and leaves the object state (committed blob,
manifest and persisted meta) unchanged. -/
theorem commit_twice (st st1 : Option storage.ObjDir) (m : storage.Meta)
    (hc : storage.Commit st = (st1, Except.ok m)) :
    blobTmpOf st1 = none
    ∧ (storage.Commit st1).2
        = Except.error "stat blob.tmp: no such file or directory"
    ∧ (storage.Commit st1).1 = st1 := by
  cases st with
  | none => simp [storage.Commit] at hc
  | some d =>
    obtain ⟨bt, bl, mf, mt⟩ := d
    cases mt with
    | none => simp [storage.Commit] at hc
    | some mv =>
      cases bt with
      | none => simp [storage.Commit] at hc
      | some btv =>
        cases mf with
        | none => simp [storage.Commit] at hc
        | some mfv =>
          simp only [storage.Commit, Prod.mk.injEq] at hc
          obtain ⟨h1, _⟩ := hc
          rw [← h1]
          refine ⟨rfl, rfl, rfl⟩

/-- Witness for C10 at a concrete staged object. -/
theorem commit_twice_witness :
    blobTmpOf (some ⟨none, some [7], some [9], some ⟨1, "x", 3, true⟩⟩) = none
    ∧ (storage.Commit (some ⟨none, some [7], some [9],
        some ⟨1, "x", 3, true⟩⟩)).2
        = Except.error "stat blob.tmp: no such file or directory"
    ∧ (storage.Commit (some ⟨none, some [7], some [9],
        some ⟨1, "x", 3, true⟩⟩)).1
      = some ⟨none, some [7], some [9], some ⟨1, "x", 3, true⟩⟩ := by
  exact commit_twice (some ⟨some [7], none, some [9], some ⟨1, "x", 3, false⟩⟩)
    (some ⟨none, some [7], some [9], some ⟨1, "x", 3, true⟩⟩)
    ⟨1, "x", 3, true⟩ rfl

/-!
Claim theorems for the room/mailbox engine.
-/

/-- C9: one GC tick deletes a room exactly when it has no connections and its
idle time exceeds `roomTTL`; a room with a connection present is retained (in
place, unchanged) regardless of `lastActivity`. -/
theorem gcTick_characterization (now : Nat) (h : Hub) (appID : String)
    (r : Room) (hnod : (h.rooms.map Prod.fst).Nodup)
    (hr : mapGet appID h.rooms = some r) :
    (mapGet appID (Hub.gcTick now h).rooms = none ↔
      (r.conns = [] ∧ roomTTL < now - r.lastActivity))
    ∧ (r.conns ≠ [] → mapGet appID (Hub.gcTick now h).rooms = some r) := by
  have hf := mapGet_filter (fun p => keepRoom now p.2) hnod hr
  have hkeq : keepRoom now r = true ↔
      ¬(r.conns = [] ∧ roomTTL < now - r.lastActivity) := by
    simp [keepRoom, List.isEmpty_iff]
    tauto
  have hshow : (Hub.gcTick now h).rooms
      = h.rooms.filter (fun p => keepRoom now p.2) := rfl
  constructor
  · rw [hshow, hf]
    by_cases hkeep : keepRoom now (appID, r).2 = true
    · rw [if_pos hkeep]
      have hnot := hkeq.1 hkeep
      simp [hnot]
    · rw [if_neg hkeep]
      have hcond : r.conns = [] ∧ roomTTL < now - r.lastActivity := by
        by_contra hno
        exact hkeep (hkeq.2 hno)
      simp [hcond]
  · intro hconns
    rw [hshow, hf]
    rw [if_pos (hkeq.2 (fun hc => hconns hc.1))]

/-- Witness for C9: a stale empty room is collected, a connected room with
the same `lastActivity` is retained. -/
theorem gcTick_characterization_witness :
    mapGet "e" (Hub.gcTick 600000000001
      ⟨[("e", ⟨[], [], [], 0⟩), ("c", ⟨[("A", 5)], [], [], 0⟩)], []⟩).rooms = none
    ∧ mapGet "c" (Hub.gcTick 600000000001
      ⟨[("e", ⟨[], [], [], 0⟩), ("c", ⟨[("A", 5)], [], [], 0⟩)], []⟩).rooms
      = some ⟨[("A", 5)], [], [], 0⟩ := by
  constructor
  · exact (gcTick_characterization 600000000001
      ⟨[("e", ⟨[], [], [], 0⟩), ("c", ⟨[("A", 5)], [], [], 0⟩)], []⟩
      "e" ⟨[], [], [], 0⟩ (by decide) (by decide)).1.mpr ⟨rfl, by decide⟩
  · exact (gcTick_characterization 600000000001
      ⟨[("e", ⟨[], [], [], 0⟩), ("c", ⟨[("A", 5)], [], [], 0⟩)], []⟩
      "c" ⟨[("A", 5)], [], [], 0⟩ (by decide) (by decide)).2 (by decide)

/-- C5: a `Register` for a side that already has a connection sends the old
connection a close frame with code 1000 and reason "replaced", closes it,
and installs the new connection as the unique handle for that side (also in
the reverse index). -/
theorem register_replaces (now : Nat) (appID side sid : String)
    (cOld conn : Nat) (h : Hub) (r : Room)
    (hside : side = "A" ∨ side = "B")
    (hr : mapGet appID h.rooms = some r)
    (hold : mapGet side r.conns = some cOld)
    (hcnt : countKey side r.conns ≤ 1) :
    (Hub.Register now appID side sid conn h).2.2 = Except.ok ()
    ∧ (∃ rest, (Hub.Register now appID side sid conn h).2.1
        = WsEvent.closeFrame cOld 1000 "replaced" :: WsEvent.connClosed cOld :: rest)
    ∧ mapGet side (roomConns (Hub.Register now appID side sid conn h).1 appID)
        = some conn
    ∧ countKey side (roomConns (Hub.Register now appID side sid conn h).1 appID) = 1
    ∧ mapGet conn (Hub.Register now appID side sid conn h).1.byConn
        = some (appID, side) := by
  have hvalid : ¬(side ≠ "A" ∧ side ≠ "B") := by
    rcases hside with rfl | rfl <;> simp
  have hcpos := countKey_pos hold
  unfold Hub.Register
  rw [if_neg hvalid]
  dsimp only
  rw [hr]
  dsimp only [Option.getD_some]
  rw [hold]
  dsimp only
  refine ⟨rfl, ⟨_, rfl⟩, ?_, ?_, ?_⟩
  · rw [push_roomConns]
    dsimp only [roomConns]
    rw [mapGet_set_self]
    exact mapGet_set_self side conn r.conns
  · rw [push_roomConns]
    dsimp only [roomConns]
    rw [mapGet_set_self]
    rw [countKey_mapSet]
    rw [if_neg (by omega)]
    omega
  · rw [push_byConn]
    exact mapGet_set_self conn (appID, side) _

/-- Witness for C5: replacing connection 1 by connection 2 for side "A". -/
theorem register_replaces_witness :
    (Hub.Register 7 "u" "A" "s2" 2
      ⟨[("u", ⟨[("A", 1)], [("A", "s1")], [("A", mb0), ("B", mb0)], 0⟩)],
       [(1, ("u", "A"))]⟩).2.2 = Except.ok ()
    ∧ ((Hub.Register 7 "u" "A" "s2" 2
      ⟨[("u", ⟨[("A", 1)], [("A", "s1")], [("A", mb0), ("B", mb0)], 0⟩)],
       [(1, ("u", "A"))]⟩).2.1).take 2
      = [WsEvent.closeFrame 1 1000 "replaced", WsEvent.connClosed 1]
    ∧ mapGet "A" (roomConns (Hub.Register 7 "u" "A" "s2" 2
      ⟨[("u", ⟨[("A", 1)], [("A", "s1")], [("A", mb0), ("B", mb0)], 0⟩)],
       [(1, ("u", "A"))]⟩).1 "u") = some 2
    ∧ countKey "A" (roomConns (Hub.Register 7 "u" "A" "s2" 2
      ⟨[("u", ⟨[("A", 1)], [("A", "s1")], [("A", mb0), ("B", mb0)], 0⟩)],
       [(1, ("u", "A"))]⟩).1 "u") = 1
    ∧ mapGet 2 (Hub.Register 7 "u" "A" "s2" 2
      ⟨[("u", ⟨[("A", 1)], [("A", "s1")], [("A", mb0), ("B", mb0)], 0⟩)],
       [(1, ("u", "A"))]⟩).1.byConn = some ("u", "A") := by
  have hthm := register_replaces 7 "u" "A" "s2" 1 2
    ⟨[("u", ⟨[("A", 1)], [("A", "s1")], [("A", mb0), ("B", mb0)], 0⟩)],
     [(1, ("u", "A"))]⟩
    ⟨[("A", 1)], [("A", "s1")], [("A", mb0), ("B", mb0)], 0⟩
    (Or.inl rfl) (by decide) (by decide) (by decide)
  obtain ⟨hok, ⟨rest, hev⟩, hconn, hcnt, hby⟩ := hthm
  refine ⟨hok, ?_, hconn, hcnt, hby⟩
  rw [hev]
  rfl

/-- C2 (amended): in every run of hub operations whose `hello` and
`delivered` watermarks never exceed the target mailbox's `nextSeq` at the
moment they are processed, every mailbox of every room satisfies
`deliveredUpTo ≤ nextSeq`. -/
theorem deliveredUpTo_le_nextSeq_of_goodRun (ops : List HubOp)
    (hg : GoodRun hub0 ops = true) :
    ∀ a r, (a, r) ∈ (runOps ops hub0).rooms →
      ∀ s mb, (s, mb) ∈ r.mboxes → mb.deliveredUpTo ≤ mb.nextSeq :=
  fun a r hmem s mb hmb =>
    ((hubMbs_runOps_guarded ops hub0 hg (hubMbs_hub0 _)) a r hmem s mb hmb).2.1

/-- Witness for C2 (amended) on a one-operation run. -/
theorem deliveredUpTo_le_nextSeq_of_goodRun_witness :
    GoodRun hub0 [HubOp.register 0 "u" "A" "x" 1] = true
    ∧ mb0.deliveredUpTo ≤ mb0.nextSeq := by
  refine ⟨by decide, ?_⟩
  exact deliveredUpTo_le_nextSeq_of_goodRun [HubOp.register 0 "u" "A" "x" 1]
    (by decide) "u"
    ⟨[("A", 1)], [("A", "x")], [("A", mb0), ("B", mb0)], 0⟩
    (by decide) "A" mb0 (by decide)

/-- Counterexample to C2 as stated: a `Hello` carrying an arbitrary client
watermark (here 5) makes `deliveredUpTo` exceed `nextSeq` (still 0) in a
reachable state. -/
theorem c2_counterexample :
    (mbOf (runOps [HubOp.register 0 "u" "A" "" 1,
        HubOp.hello 0 "u" "A" "" 5] hub0) "u" "A").map
      (fun mb => decide (mb.deliveredUpTo ≤ mb.nextSeq)) = some false := by
  decide

/-- C4 (amended): in every reachable state the queue of every mailbox is
strictly ascending in `seq`; the bound `deliveredUpTo < seq` for all queued
entries additionally holds whenever the run's watermarks are honest
(never exceeding the mailbox's `nextSeq`). -/
theorem queue_sorted_and_above_watermark (ops : List HubOp) :
    ∀ a r, (a, r) ∈ (runOps ops hub0).rooms → ∀ s mb, (s, mb) ∈ r.mboxes →
      mb.queue.Pairwise (fun q1 q2 => q1.seq < q2.seq)
      ∧ (GoodRun hub0 ops = true → ∀ q ∈ mb.queue, mb.deliveredUpTo < q.seq) := by
  intro a r hmem s mb hmb
  constructor
  · exact ((hubMbs_runOps_sorted ops hub0 (hubMbs_hub0 _)) a r hmem s mb hmb).1
  · intro hg
    exact ((hubMbs_runOps_guarded ops hub0 hg (hubMbs_hub0 _)) a r hmem s mb hmb).2.2

/-- Witness for C4 (amended) on a register-then-enqueue run. -/
theorem queue_sorted_and_above_watermark_witness :
    GoodRun hub0 [HubOp.register 0 "u" "A" "" 1,
      HubOp.enqueue 0 "u" "B" "A" "p"] = true
    ∧ (0 : Nat) < 1 := by
  refine ⟨by decide, ?_⟩
  have hthm := queue_sorted_and_above_watermark
    [HubOp.register 0 "u" "A" "" 1, HubOp.enqueue 0 "u" "B" "A" "p"]
    "u"
    ⟨[("A", 1)], [("A", "")],
      [("A", ⟨1, 0, [⟨1, "B", "p"⟩]⟩), ("B", mb0)], 0⟩
    (by decide) "A" ⟨1, 0, [⟨1, "B", "p"⟩]⟩ (by decide)
  exact hthm.2 (by decide) ⟨1, "B", "p"⟩ (by decide)

/-- Counterexample to C4 as stated: after an adversarial `Hello(5)` on an
empty mailbox, an enqueued entry gets `seq = 1 ≤ deliveredUpTo = 5`, so not
every queued entry is above the watermark. -/
theorem c4_counterexample :
    (mbOf (runOps [HubOp.register 0 "u" "A" "" 1, HubOp.hello 0 "u" "A" "" 5,
        HubOp.enqueue 0 "u" "B" "A" "p"] hub0) "u" "A").map
      (fun mb => decide (∀ q ∈ mb.queue, mb.deliveredUpTo < q.seq))
      = some false := by
  decide

/-- Per-call characterization of `Enqueue` on a valid recipient: the entry is
appended and `nextSeq` incremented unconditionally, and the backlog error is
returned iff the post-append queue length exceeds the cap. -/
theorem enqueue_step (now : Nat) (appID f toS p : String) (h : Hub)
    (hto : toS = "A" ∨ toS = "B") :
    mbOf (Hub.Enqueue now appID f toS p h).1 appID toS
      = some (enqueueMb f p ((mbOf h appID toS).getD mb0))
    ∧ ((Hub.Enqueue now appID f toS p h).2.2 = Except.error "backlog limit"
      ↔ maxMailboxQueued < ((mbOf h appID toS).getD mb0).queue.length + 1) := by
  have hvalid : ¬(toS ≠ "A" ∧ toS ≠ "B") := by
    rcases hto with rfl | rfl <;> simp
  have hpre : (mapGet toS ((mapGet appID h.rooms).getD
        (freshRoom now)).mboxes).getD mb0
      = (mbOf h appID toS).getD mb0 := by
    cases hr : mapGet appID h.rooms with
    | none =>
      dsimp only [mbOf]
      rw [hr]
      rcases hto with rfl | rfl <;> rfl
    | some r =>
      dsimp only [mbOf]
      rw [hr]
      rfl
  have hlen : (enqueueMb f p ((mapGet toS ((mapGet appID h.rooms).getD
        (freshRoom now)).mboxes).getD mb0)).queue.length
      = ((mbOf h appID toS).getD mb0).queue.length + 1 := by
    rw [hpre]
    simp [enqueueMb]
  unfold Hub.Enqueue
  rw [if_neg hvalid]
  dsimp only
  split
  · rename_i hcond
    constructor
    · dsimp only [mbOf]
      rw [mapGet_set_self, Option.some_bind]
      rw [mapGet_set_self, hpre]
      rfl
    · constructor
      · intro _
        rw [← hlen]
        exact hcond
      · intro _
        rfl
  · rename_i hcond
    constructor
    · rw [touch_mbOf, push_mbOf]
      dsimp only [mbOf]
      rw [mapGet_set_self, Option.some_bind]
      rw [mapGet_set_self, hpre]
      rfl
    · constructor
      · intro habs
        exact absurd habs (by simp)
      · intro hlt
        exact absurd (hlen.symm ▸ hlt) hcond

/-- C1 (amended): every `Enqueue` with a valid recipient appends the entry
(with `seq = nextSeq + 1`) and increments `nextSeq` unconditionally; the call
returns the backlog-limit error iff the post-append queue length exceeds
`maxMailboxQueued`, with the appended entry and the incremented `nextSeq`
kept even on the error path, so repeated enqueues grow the queue beyond the
cap. -/
theorem enqueue_backlog_behavior (now : Nat) (appID f toS p : String)
    (h : Hub) (hto : toS = "A" ∨ toS = "B") :
    mbOf (Hub.Enqueue now appID f toS p h).1 appID toS
      = some { nextSeq := ((mbOf h appID toS).getD mb0).nextSeq + 1,
               deliveredUpTo := ((mbOf h appID toS).getD mb0).deliveredUpTo,
               queue := ((mbOf h appID toS).getD mb0).queue ++
                 [{ seq := ((mbOf h appID toS).getD mb0).nextSeq + 1,
                    fromSide := f, payload := p }] }
    ∧ ((Hub.Enqueue now appID f toS p h).2.2 = Except.error "backlog limit"
      ↔ maxMailboxQueued < ((mbOf h appID toS).getD mb0).queue.length + 1) :=
  enqueue_step now appID f toS p h hto

/-- Witness for C1 (amended) on the first enqueue into a fresh hub. -/
theorem enqueue_backlog_behavior_witness :
    mbOf (Hub.Enqueue 0 "u" "B" "A" "p" hub0).1 "u" "A"
      = some { nextSeq := 1, deliveredUpTo := 0,
               queue := [{ seq := 1, fromSide := "B", payload := "p" }] }
    ∧ ((Hub.Enqueue 0 "u" "B" "A" "p" hub0).2.2
        = Except.error "backlog limit" ↔ maxMailboxQueued < 1) :=
  enqueue_backlog_behavior 0 "u" "B" "A" "p" hub0 (Or.inl rfl)

theorem mbN_spec (n : Nat) :
    (mbN n).nextSeq = n ∧ (mbN n).queue.length = n := by
  induction n with
  | zero => simp [mbN, mb0]
  | succ k ih =>
    simp [mbN, enqueueMb, ih.1, ih.2]

theorem enqueueN_mb (n : Nat) :
    mbOf (enqueueN (n + 1)) "u" "A" = some (mbN (n + 1)) := by
  induction n with
  | zero =>
    have hstep := (enqueue_step 0 "u" "B" "A" "p" hub0 (Or.inl rfl)).1
    exact hstep
  | succ k ih =>
    have hstep := (enqueue_step 0 "u" "B" "A" "p" (enqueueN (k + 1))
      (Or.inl rfl)).1
    rw [ih] at hstep
    exact hstep

/-- Counterexample to C1 as stated: after 10000 enqueues the 10001st call
returns the backlog-limit error yet still appends, leaving a reachable state
whose queue length is 10001 > `maxMailboxQueued`. -/
theorem c1_counterexample :
    (Hub.Enqueue 0 "u" "B" "A" "p" (enqueueN 10000)).2.2
        = Except.error "backlog limit"
    ∧ (mbOf (enqueueN 10001) "u" "A").map (fun mb => mb.queue.length)
        = some 10001
    ∧ (mbOf (enqueueN 10000) "u" "A").map (fun mb => mb.queue.length)
        = some 10000 := by
  have h10000 : mbOf (enqueueN 10000) "u" "A" = some (mbN 10000) :=
    enqueueN_mb 9999
  have h10001 : mbOf (enqueueN 10001) "u" "A" = some (mbN 10001) :=
    enqueueN_mb 10000
  refine ⟨?_, ?_, ?_⟩
  · have hstep := (enqueue_step 0 "u" "B" "A" "p" (enqueueN 10000)
      (Or.inl rfl)).2
    apply hstep.mpr
    rw [h10000, Option.getD_some, (mbN_spec 10000).2]
    decide
  · rw [h10001]
    simp [(mbN_spec 10001).2]
  · rw [h10000]
    simp [(mbN_spec 10000).2]

theorem roomFullTargets_append (l1 l2 : List WsEvent) :
    roomFullTargets (l1 ++ l2) = roomFullTargets l1 ++ roomFullTargets l2 := by
  simp [roomFullTargets, List.filterMap_append]

theorem roomFullTargets_push (now : Nat) (a s : String) (h : Hub) :
    roomFullTargets (Hub.pushAllLocked now a s h).2 = [] := by
  unfold Hub.pushAllLocked
  cases h1 : mapGet a h.rooms with
  | none => rfl
  | some r =>
    dsimp only
    cases h2 : mapGet s r.conns with
    | none => rfl
    | some c =>
      dsimp only
      cases h3 : mapGet s r.mboxes with
      | none => rfl
      | some mb =>
        dsimp only
        split
        · rfl
        · simp [roomFullTargets, List.filterMap_map, Function.comp]

theorem roomFullTargets_register (now : Nat) (appID side sid : String)
    (conn : Nat) (h : Hub) :
    roomFullTargets (Hub.Register now appID side sid conn h).2.1 = [] := by
  unfold Hub.Register
  by_cases hside : side ≠ "A" ∧ side ≠ "B"
  · rw [if_pos hside]
    rfl
  · rw [if_neg hside]
    dsimp only
    rw [roomFullTargets_append, roomFullTargets_push]
    cases mapGet side ((mapGet appID h.rooms).getD (freshRoom now)).conns <;> rfl

theorem broadcast_targets (appID : String) (h : Hub) :
    roomFullTargets (Hub.BroadcastEvent appID "room_full" h)
      = (roomConns h appID).map Prod.snd := by
  unfold Hub.BroadcastEvent roomConns
  cases mapGet appID h.rooms with
  | none => rfl
  | some r =>
    dsimp only
    induction r.conns with
    | nil => rfl
    | cons p rest ih =>
      simp only [List.map_cons, roomFullTargets, List.filterMap_cons] at ih ⊢
      simp [ih]

/-- C3 (amended): the handler broadcasts `room_full` after a registration
exactly when the room then holds two connections, to precisely the room's
current connections; in a plain two-socket run each side therefore receives
it once, but a replacement registration while both sides are present
broadcasts it again. -/
theorem wsConnect_roomFull (now : Nat) (appID side sid : String) (conn : Nat)
    (h : Hub) (hside : side = "A" ∨ side = "B") :
    (wsConnect now appID side sid conn h).1
      = (Hub.Register now appID side sid conn h).1
    ∧ roomFullTargets (wsConnect now appID side sid conn h).2
      = (if Hub.RoomSize appID (Hub.Register now appID side sid conn h).1 = 2
         then (roomConns (Hub.Register now appID side sid conn h).1 appID).map
           Prod.snd
         else []) := by
  have hvalid : ¬(side ≠ "A" ∧ side ≠ "B") := by
    rcases hside with rfl | rfl <;> simp
  have hok : (Hub.Register now appID side sid conn h).2.2 = Except.ok () := by
    unfold Hub.Register
    rw [if_neg hvalid]
  unfold wsConnect
  rw [show Hub.Register now appID side sid conn h
      = ((Hub.Register now appID side sid conn h).1,
         (Hub.Register now appID side sid conn h).2.1,
         (Hub.Register now appID side sid conn h).2.2) from rfl]
  rw [hok]
  dsimp only
  by_cases hsz : Hub.RoomSize appID (Hub.Register now appID side sid conn h).1 = 2
  · rw [if_pos hsz, if_pos hsz]
    refine ⟨rfl, ?_⟩
    rw [roomFullTargets_append, roomFullTargets_register, broadcast_targets]
    rfl
  · rw [if_neg hsz, if_neg hsz]
    exact ⟨rfl, roomFullTargets_register now appID side sid conn h⟩

/-- Witness for C3 (amended): the second socket's arrival broadcasts
`room_full` to exactly the two connections. -/
theorem wsConnect_roomFull_witness :
    (wsConnect 1 "u" "B" "" 2 (wsConnect 0 "u" "A" "" 1 hub0).1).1
      = (Hub.Register 1 "u" "B" "" 2 (wsConnect 0 "u" "A" "" 1 hub0).1).1
    ∧ roomFullTargets
        (wsConnect 1 "u" "B" "" 2 (wsConnect 0 "u" "A" "" 1 hub0).1).2
      = [1, 2] := by
  have hthm := wsConnect_roomFull 1 "u" "B" "" 2
    (wsConnect 0 "u" "A" "" 1 hub0).1 (Or.inr rfl)
  refine ⟨hthm.1, ?_⟩
  rw [hthm.2]
  decide

/-- Counterexample to C3 as stated: connection 2 receives `room_full` when
side B arrives, and receives it a second time when side A is replaced by a
new socket (which also receives it), so the event is not emitted exactly
once per room. -/
theorem c3_counterexample :
    countRF 2 ((wsConnect 1 "u" "B" "" 2
        (wsConnect 0 "u" "A" "" 1 hub0).1).2) = 1
    ∧ countRF 2 ((wsConnect 2 "u" "A" "" 3
        (wsConnect 1 "u" "B" "" 2 (wsConnect 0 "u" "A" "" 1 hub0).1).1).2) = 1
    ∧ countRF 3 ((wsConnect 2 "u" "A" "" 3
        (wsConnect 1 "u" "B" "" 2 (wsConnect 0 "u" "A" "" 1 hub0).1).1).2)
      = 1 := by
  decide
